import Mathlib

/-!
Verification development for the gin diff-view subsystem (vim-gin).

The provided sources contain the Diff View Controller
(`feature/diff/command.ts`: `command`, `read`, `parseResidue`, `jumpOld`,
`jumpNew`) and the worktree discovery helper (`util/worktree.ts`).
The three pure collaborators they use — the Buffer-Name Codec
(`bufname.format` / `bufname.parse`), the Target Resolver
(`parseCommitish` in `commitish.ts`) and the Diff Line Locator
(`findJumpOld` / `findJumpNew` in `jump.ts`) — are not among the provided
sources and are modelled from the specification, as noted on each
definition.  Strings are manipulated through their underlying character
lists so that every operation is executable and provable.
-/

deriving instance DecidableEq for Except

namespace Gin

/-! ## Buffer-Name Codec (namespace `Bufname`)

Modelled from the spec: §4.2 Buffer-Name Codec.  The identifier grammar is
`scheme://root-path?key1=value1&key2&...#fragment-path`; presence-only
parameters serialize with no `=value`; root and fragment are
percent-encoded only for characters that collide with URI delimiters, so
path separators survive verbatim. -/

namespace Bufname

/-- Value of a buffer-name parameter: either a presence-only flag or a
string value (spec §3: "string-or-present-flag"). -/
inductive ParamValue
  | present
  | str (v : String)
deriving DecidableEq, Repr

/-- Structured buffer descriptor (spec §3): scheme tag, repository root
(the source calls it `expr`), ordered key/value parameters, fragment. -/
structure BufferDescriptor where
  scheme : String
  expr : String
  params : List (String × ParamValue)
  fragment : String
deriving DecidableEq, Repr

/-- Errors of the codec (spec §4.2 / §7). -/
inductive CodecError
  | UnrecognizedScheme
  | MissingFragment
  | InvalidFormat
deriving DecidableEq, Repr

/-- Upper-case hexadecimal digit for a value below 16. -/
def hexDigitChar (n : Nat) : Char :=
  if n < 10 then Char.ofNat (48 + n) else Char.ofNat (55 + n)

/-- Numeric value of a hexadecimal digit character. -/
def hexVal (c : Char) : Nat :=
  if c.toNat ≥ 65 then c.toNat - 55 else c.toNat - 48

/-- Characters escaped inside parameter keys and values. -/
def paramReserved : List Char := ['%', '?', '#', '&', '=']

/-- Characters escaped inside the root path. -/
def rootReserved : List Char := ['%', '?', '#']

/-- Characters escaped inside the fragment path. -/
def fragReserved : List Char := ['%', '#']

/-- Percent-escape a single character when it belongs to the reserved
set. -/
def encChar (rs : List Char) (c : Char) : List Char :=
  if c ∈ rs then ['%', hexDigitChar (c.toNat / 16), hexDigitChar (c.toNat % 16)] else [c]

/-- Percent-encode a character list with respect to a reserved set. -/
def pctEncode (rs : List Char) : List Char → List Char
  | [] => []
  | c :: rest => encChar rs c ++ pctEncode rs rest

/-- Percent-decode a character list: each `%hh` triple becomes the
character with code `hh`; everything else passes through. -/
def decode : List Char → List Char
  | [] => []
  | [c] => [c]
  | [c, d] => [c, d]
  | c :: h1 :: h2 :: rest =>
    if c = '%' then Char.ofNat (hexVal h1 * 16 + hexVal h2) :: decode rest
    else c :: decode (h1 :: h2 :: rest)

theorem decode_cons_ne (c : Char) (rest : List Char) (h : c ≠ '%') :
    decode (c :: rest) = c :: decode rest := by
  match rest with
  | [] => rfl
  | [d] => rfl
  | d :: e :: r => simp [decode, h]

theorem decode_escape (h1 h2 : Char) (rest : List Char) :
    decode ('%' :: h1 :: h2 :: rest) =
      Char.ofNat (hexVal h1 * 16 + hexVal h2) :: decode rest := by
  simp [decode]

theorem decode_roundtrip_char (c : Char) (hc : c ∈ paramReserved) :
    Char.ofNat (hexVal (hexDigitChar (c.toNat / 16)) * 16 +
      hexVal (hexDigitChar (c.toNat % 16))) = c := by
  simp [paramReserved] at hc
  rcases hc with rfl | rfl | rfl | rfl | rfl <;> decide

theorem decode_pctEncode (rs : List Char) (hsub : rs ⊆ paramReserved)
    (hpct : '%' ∈ rs) (l : List Char) : decode (pctEncode rs l) = l := by
  induction l with
  | nil => rfl
  | cons c t ih =>
    by_cases hc : c ∈ rs
    · have hc' : c ∈ paramReserved := hsub hc
      simp only [pctEncode, encChar, if_pos hc, List.cons_append, List.nil_append]
      rw [decode_escape, decode_roundtrip_char c hc', ih]
    · have hcp : c ≠ '%' := fun h => hc (h ▸ hpct)
      simp only [pctEncode, encChar, if_neg hc, List.cons_append, List.nil_append]
      rw [decode_cons_ne _ _ hcp, ih]

theorem hex_not_reserved (c d : Char) (hc : c ∈ paramReserved)
    (hd : d ∈ paramReserved) :
    d ≠ hexDigitChar (c.toNat / 16) ∧ d ≠ hexDigitChar (c.toNat % 16) := by
  simp [paramReserved] at hc hd
  rcases hc with rfl | rfl | rfl | rfl | rfl <;>
    rcases hd with rfl | rfl | rfl | rfl | rfl <;>
    exact ⟨by decide, by decide⟩

theorem delim_not_mem_pctEncode (rs : List Char) (hsub : rs ⊆ paramReserved)
    (d : Char) (hd : d ∈ rs) (hdp : d ≠ '%') (l : List Char) :
    d ∉ pctEncode rs l := by
  induction l with
  | nil => simp [pctEncode]
  | cons c t ih =>
    simp only [pctEncode, List.mem_append]
    rintro (hmem | hmem)
    · by_cases hc : c ∈ rs
      · have hpair := hex_not_reserved c d (hsub hc) (hsub hd)
        simp [encChar, if_pos hc] at hmem
        rcases hmem with rfl | rfl | rfl
        · exact hdp rfl
        · exact hpair.1 rfl
        · exact hpair.2 rfl
      · simp [encChar, if_neg hc] at hmem
        exact hc (hmem ▸ hd)
    · exact ih hmem

theorem pctEncode_ne_nil (rs : List Char) (l : List Char) (h : l ≠ []) :
    pctEncode rs l ≠ [] := by
  cases l with
  | nil => exact absurd rfl h
  | cons c t =>
    simp only [pctEncode]
    intro hcontra
    rcases List.append_eq_nil.mp hcontra with ⟨h1, _⟩
    by_cases hc : c ∈ rs <;> simp [encChar, hc] at h1

end Bufname

/-- Split a character list at the first occurrence of a delimiter,
returning the part before and after it, or `none` when absent. -/
def splitAtFirst (d : Char) : List Char → Option (List Char × List Char)
  | [] => none
  | c :: rest =>
    if c = d then some ([], rest)
    else
      match splitAtFirst d rest with
      | none => none
      | some (a, b) => some (c :: a, b)

/-- Split a character list at every occurrence of a delimiter. -/
def splitAll (d : Char) : List Char → List (List Char)
  | [] => [[]]
  | c :: rest =>
    if c = d then [] :: splitAll d rest
    else
      match splitAll d rest with
      | [] => [[c]]
      | a :: as => (c :: a) :: as

/-- Join pieces with a single delimiter character between them. -/
def joinPieces (d : Char) : List (List Char) → List Char
  | [] => []
  | [p] => p
  | p :: q :: rest => p ++ d :: joinPieces d (q :: rest)

theorem splitAtFirst_not_mem (d : Char) (l : List Char) (h : d ∉ l) :
    splitAtFirst d l = none := by
  induction l with
  | nil => rfl
  | cons c t ih =>
    have hcd : c ≠ d := fun hc => h (hc ▸ List.mem_cons_self c t)
    simp only [splitAtFirst, if_neg hcd, ih (fun hm => h (List.mem_cons_of_mem c hm))]

theorem splitAtFirst_append (d : Char) (xs ys : List Char) (h : d ∉ xs) :
    splitAtFirst d (xs ++ d :: ys) = some (xs, ys) := by
  induction xs with
  | nil => simp [splitAtFirst]
  | cons c t ih =>
    have hcd : c ≠ d := fun hc => h (hc ▸ List.mem_cons_self c t)
    simp only [List.cons_append, splitAtFirst, if_neg hcd, List.append_eq,
      ih (fun hm => h (List.mem_cons_of_mem c hm))]

theorem splitAll_not_mem (d : Char) (l : List Char) (h : d ∉ l) :
    splitAll d l = [l] := by
  induction l with
  | nil => rfl
  | cons c t ih =>
    have hcd : c ≠ d := fun hc => h (hc ▸ List.mem_cons_self c t)
    simp only [splitAll, if_neg hcd, ih (fun hm => h (List.mem_cons_of_mem c hm))]

theorem splitAll_append (d : Char) (xs ys : List Char) (h : d ∉ xs) :
    splitAll d (xs ++ d :: ys) = xs :: splitAll d ys := by
  induction xs with
  | nil => simp [splitAll]
  | cons c t ih =>
    have hcd : c ≠ d := fun hc => h (hc ▸ List.mem_cons_self c t)
    have ih' := ih (fun hm => h (List.mem_cons_of_mem c hm))
    simp only [List.cons_append, splitAll, if_neg hcd, List.append_eq, ih']

theorem splitAll_ne_nil (d : Char) (l : List Char) : splitAll d l ≠ [] := by
  cases l with
  | nil => simp [splitAll]
  | cons a b =>
    simp only [splitAll]
    by_cases hab : a = d
    · simp [hab]
    · simp only [if_neg hab]
      split <;> simp

theorem mem_joinPieces (d : Char) (ps : List (List Char)) (x : Char)
    (hx : x ∈ joinPieces d ps) : x = d ∨ ∃ p ∈ ps, x ∈ p := by
  induction ps with
  | nil => simp [joinPieces] at hx
  | cons p rest ih =>
    cases rest with
    | nil =>
      right
      exact ⟨p, List.mem_cons_self p [], by simpa [joinPieces] using hx⟩
    | cons q rest2 =>
      simp only [joinPieces, List.mem_append, List.mem_cons] at hx
      rcases hx with hp | rfl | hrest
      · exact Or.inr ⟨p, List.mem_cons_self p _, hp⟩
      · exact Or.inl rfl
      · rcases ih hrest with h | ⟨r, hr, hxr⟩
        · exact Or.inl h
        · exact Or.inr ⟨r, List.mem_cons_of_mem p hr, hxr⟩

theorem splitAll_joinPieces (d : Char) (ps : List (List Char)) (hne : ps ≠ [])
    (h : ∀ p ∈ ps, d ∉ p) : splitAll d (joinPieces d ps) = ps := by
  induction ps with
  | nil => exact absurd rfl hne
  | cons p rest ih =>
    cases rest with
    | nil =>
      simpa [joinPieces] using splitAll_not_mem d p (h p (List.mem_cons_self p []))
    | cons q rest2 =>
      have hjoin : joinPieces d (p :: q :: rest2) = p ++ d :: joinPieces d (q :: rest2) := rfl
      rw [hjoin, splitAll_append d p _ (h p (List.mem_cons_self p _)),
        ih (by simp) (fun r hr => h r (List.mem_cons_of_mem p hr))]

namespace Bufname

/-- Serialized form of one parameter: `key` for a presence-only flag,
`key=value` otherwise, both percent-encoded. -/
def serializeParam (p : String × ParamValue) : List Char :=
  match p.2 with
  | .present => pctEncode paramReserved p.1.data
  | .str v => pctEncode paramReserved p.1.data ++ '=' :: pctEncode paramReserved v.data

/-- Character-level serialization of a descriptor:
`scheme://root?params#fragment`, with the `?params` part omitted when
there are no parameters. -/
def serializeL (d : BufferDescriptor) : List Char :=
  d.scheme.data ++ ':' :: '/' :: '/' :: pctEncode rootReserved d.expr.data ++
    (if d.params = [] then []
     else '?' :: joinPieces '&' (d.params.map serializeParam)) ++
    '#' :: pctEncode fragReserved d.fragment.data

/-- Modelled from the spec: `bufname.format` of §4.2 — serialize a
descriptor into the single identifier string (the codec implementation is
not among the provided sources). -/
def format (d : BufferDescriptor) : String := String.mk (serializeL d)

/-- Parse one `key` or `key=value` parameter piece. -/
def parseParamPiece (piece : List Char) : String × ParamValue :=
  match splitAtFirst '=' piece with
  | none => (String.mk (decode piece), .present)
  | some (k, v) => (String.mk (decode k), .str (String.mk (decode v)))

/-- Modelled from the spec: parse an identifier into a descriptor without
checking the scheme against an expected tag (the underlying generic
`bufname.parse`).  Fails with `MissingFragment` when the fragment part is
absent or empty, and with `InvalidFormat` when the `scheme://` shape is
not present. -/
def parseAnyL (l : List Char) : Except CodecError BufferDescriptor :=
  let sch := l.takeWhile Char.isLower
  let rest := l.dropWhile Char.isLower
  if sch = [] then .error .InvalidFormat
  else if [':', '/', '/'].isPrefixOf rest then
    match splitAtFirst '#' (rest.drop 3) with
    | none => .error .MissingFragment
    | some (before, frag) =>
      if frag = [] then .error .MissingFragment
      else
        match splitAtFirst '?' before with
        | none =>
          .ok ⟨String.mk sch, String.mk (decode before), [], String.mk (decode frag)⟩
        | some (r, ps) =>
          .ok ⟨String.mk sch, String.mk (decode r),
            (splitAll '&' ps).map parseParamPiece, String.mk (decode frag)⟩
  else .error .InvalidFormat

/-- String-level variant of `parseAnyL`. -/
def parseAny (id : String) : Except CodecError BufferDescriptor :=
  parseAnyL id.data

/-- Modelled from the spec: §4.2 — parsing rejects an identifier whose
scheme does not match the expected tag with `UnrecognizedScheme`. -/
def parse (tag : String) (id : String) : Except CodecError BufferDescriptor :=
  if String.mk (id.data.takeWhile Char.isLower) = tag then parseAnyL id.data
  else .error .UnrecognizedScheme

/-- Legal descriptor space (spec §3): the scheme is a non-empty lowercase
tag, the fragment is non-empty, and parameter keys are unique. -/
def ValidDescriptor (d : BufferDescriptor) : Prop :=
  d.scheme.data ≠ [] ∧ (∀ c ∈ d.scheme.data, c.isLower = true) ∧
    d.fragment.data ≠ [] ∧ (d.params.map Prod.fst).Nodup

instance (d : BufferDescriptor) : Decidable (ValidDescriptor d) := by
  unfold ValidDescriptor; infer_instance

theorem takeWhile_append_stop (p : Char → Bool) (xs : List Char) (c : Char)
    (ys : List Char) (hx : ∀ x ∈ xs, p x = true) (hc : p c = false) :
    (xs ++ c :: ys).takeWhile p = xs ∧ (xs ++ c :: ys).dropWhile p = c :: ys := by
  induction xs with
  | nil => simp [List.takeWhile, List.dropWhile, hc]
  | cons a t ih =>
    have ha : p a = true := hx a (List.mem_cons_self a t)
    have iht := ih (fun x hxm => hx x (List.mem_cons_of_mem a hxm))
    simp [List.cons_append, List.takeWhile_cons, List.dropWhile_cons, ha, iht.1, iht.2]

theorem parseParamPiece_serializeParam (pm : String × ParamValue) :
    parseParamPiece (serializeParam pm) = pm := by
  have hsub : paramReserved ⊆ paramReserved := fun _ h => h
  have hmem : '%' ∈ paramReserved := by decide
  have heq : ('=' : Char) ∈ paramReserved := by decide
  obtain ⟨k, v⟩ := pm
  cases v with
  | present =>
    have h1 : splitAtFirst '=' (pctEncode paramReserved k.data) = none :=
      splitAtFirst_not_mem _ _
        (delim_not_mem_pctEncode paramReserved hsub '=' heq (by decide) k.data)
    simp [parseParamPiece, serializeParam, h1,
      decode_pctEncode paramReserved hsub hmem]
  | str s =>
    have h1 : splitAtFirst '=' (pctEncode paramReserved k.data ++
        '=' :: pctEncode paramReserved s.data) =
        some (pctEncode paramReserved k.data, pctEncode paramReserved s.data) :=
      splitAtFirst_append _ _ _
        (delim_not_mem_pctEncode paramReserved hsub '=' heq (by decide) k.data)
    simp [parseParamPiece, serializeParam, h1,
      decode_pctEncode paramReserved hsub hmem]

theorem delim_not_mem_serializeParam (x : Char) (hx : x ∈ paramReserved)
    (hxp : x ≠ '%') (hxe : x ≠ '=') (pm : String × ParamValue) :
    x ∉ serializeParam pm := by
  have hsub : paramReserved ⊆ paramReserved := fun _ hh => hh
  obtain ⟨k, v⟩ := pm
  cases v with
  | present => exact delim_not_mem_pctEncode paramReserved hsub x hx hxp k.data
  | str s =>
    simp only [serializeParam, List.mem_append, List.mem_cons]
    rintro (hm | rfl | hm)
    · exact delim_not_mem_pctEncode paramReserved hsub x hx hxp k.data hm
    · exact hxe rfl
    · exact delim_not_mem_pctEncode paramReserved hsub x hx hxp s.data hm

theorem delim_not_mem_joinParams (x : Char) (hx : x ∈ paramReserved)
    (hxp : x ≠ '%') (hxe : x ≠ '=') (hxa : x ≠ '&')
    (ps : List (String × ParamValue)) :
    x ∉ joinPieces '&' (ps.map serializeParam) := by
  intro hmem
  rcases mem_joinPieces '&' _ x hmem with rfl | ⟨p, hp, hxp2⟩
  · exact hxa rfl
  · rcases List.mem_map.mp hp with ⟨pm, _, rfl⟩
    exact delim_not_mem_serializeParam x hx hxp hxe pm hxp2

theorem parseAnyL_serializeL (d : BufferDescriptor) (h : ValidDescriptor d) :
    parseAnyL (serializeL d) = .ok d := by
  obtain ⟨sc, ex, pa, fr⟩ := d
  obtain ⟨hs, hlow, hf, _⟩ := h
  have hsubR : rootReserved ⊆ paramReserved := by decide
  have hsubF : fragReserved ⊆ paramReserved := by decide
  have hR : decode (pctEncode rootReserved ex.data) = ex.data :=
    decode_pctEncode _ hsubR (by decide) _
  have hF : decode (pctEncode fragReserved fr.data) = fr.data :=
    decode_pctEncode _ hsubF (by decide) _
  have hashR : '#' ∉ pctEncode rootReserved ex.data :=
    delim_not_mem_pctEncode _ hsubR '#' (by decide) (by decide) _
  have qR : '?' ∉ pctEncode rootReserved ex.data :=
    delim_not_mem_pctEncode _ hsubR '?' (by decide) (by decide) _
  have hFne : pctEncode fragReserved fr.data ≠ [] := pctEncode_ne_nil _ _ hf
  by_cases hp : pa = []
  · subst hp
    have hstop := takeWhile_append_stop Char.isLower sc.data ':'
      ('/' :: '/' :: (pctEncode rootReserved ex.data ++
        '#' :: pctEncode fragReserved fr.data)) hlow (by decide)
    have hser : serializeL ⟨sc, ex, [], fr⟩ = sc.data ++ ':' :: '/' :: '/' ::
        (pctEncode rootReserved ex.data ++ '#' :: pctEncode fragReserved fr.data) := by
      simp [serializeL, List.append_assoc]
    rw [hser]
    simp only [parseAnyL, hstop.1, hstop.2, if_neg hs]
    have hpre : ([':', '/', '/'].isPrefixOf (':' :: '/' :: '/' ::
        (pctEncode rootReserved ex.data ++ '#' :: pctEncode fragReserved fr.data))) = true := by
      simp [List.isPrefixOf]
    simp only [hpre, if_true, List.drop_succ_cons, List.drop_zero,
      splitAtFirst_append '#' _ _ hashR, if_neg hFne,
      splitAtFirst_not_mem '?' _ qR, hR, hF]
  · have hstop := takeWhile_append_stop Char.isLower sc.data ':'
      ('/' :: '/' :: (pctEncode rootReserved ex.data ++
        ('?' :: joinPieces '&' (pa.map serializeParam) ++
          '#' :: pctEncode fragReserved fr.data))) hlow (by decide)
    have hser : serializeL ⟨sc, ex, pa, fr⟩ = sc.data ++ ':' :: '/' :: '/' ::
        (pctEncode rootReserved ex.data ++
          ('?' :: joinPieces '&' (pa.map serializeParam) ++
            '#' :: pctEncode fragReserved fr.data)) := by
      simp [serializeL, hp, List.append_assoc]
    rw [hser]
    simp only [parseAnyL, hstop.1, hstop.2, if_neg hs]
    have hpre : ([':', '/', '/'].isPrefixOf (':' :: '/' :: '/' ::
        (pctEncode rootReserved ex.data ++
          ('?' :: joinPieces '&' (pa.map serializeParam) ++
            '#' :: pctEncode fragReserved fr.data)))) = true := by
      simp [List.isPrefixOf]
    have hashBefore : '#' ∉ pctEncode rootReserved ex.data ++
        '?' :: joinPieces '&' (pa.map serializeParam) := by
      simp only [List.mem_append, List.mem_cons]
      rintro (hm | h2 | hm)
      · exact hashR hm
      · exact absurd h2 (by decide)
      · exact delim_not_mem_joinParams '#' (by decide) (by decide) (by decide)
          (by decide) pa hm
    have hsplit : splitAtFirst '#' (pctEncode rootReserved ex.data ++
        ('?' :: joinPieces '&' (pa.map serializeParam) ++
          '#' :: pctEncode fragReserved fr.data)) =
        some (pctEncode rootReserved ex.data ++
          '?' :: joinPieces '&' (pa.map serializeParam),
          pctEncode fragReserved fr.data) := by
      rw [show pctEncode rootReserved ex.data ++
          ('?' :: joinPieces '&' (pa.map serializeParam) ++
            '#' :: pctEncode fragReserved fr.data) =
          (pctEncode rootReserved ex.data ++
            '?' :: joinPieces '&' (pa.map serializeParam)) ++
            '#' :: pctEncode fragReserved fr.data by
        simp [List.append_assoc]]
      exact splitAtFirst_append '#' _ _ hashBefore
    have hq : splitAtFirst '?' (pctEncode rootReserved ex.data ++
        '?' :: joinPieces '&' (pa.map serializeParam)) =
        some (pctEncode rootReserved ex.data,
          joinPieces '&' (pa.map serializeParam)) :=
      splitAtFirst_append '?' _ _ qR
    have hallsplit : splitAll '&' (joinPieces '&' (pa.map serializeParam)) =
        pa.map serializeParam := by
      refine splitAll_joinPieces '&' _ (by simpa using hp) ?_
      intro p hpm
      rcases List.mem_map.mp hpm with ⟨pm, _, rfl⟩
      exact delim_not_mem_serializeParam '&' (by decide) (by decide) (by decide) pm
    simp only [hpre, if_true, List.drop_succ_cons, List.drop_zero, hsplit,
      if_neg hFne, hq, hallsplit, List.map_map, hR, hF]
    have hmapid : pa.map (parseParamPiece ∘ serializeParam) = pa := by
      have : ∀ pm ∈ pa, (parseParamPiece ∘ serializeParam) pm = pm := by
        intro pm _
        exact parseParamPiece_serializeParam pm
      rw [List.map_congr_left this]
      simp
    rw [hmapid]

theorem takeWhile_serializeL (d : BufferDescriptor) (h : ValidDescriptor d) :
    (serializeL d).takeWhile Char.isLower = d.scheme.data := by
  obtain ⟨sc, ex, pa, fr⟩ := d
  obtain ⟨_, hlow, _, _⟩ := h
  have hser : serializeL ⟨sc, ex, pa, fr⟩ = sc.data ++ ':' :: '/' :: '/' ::
      (pctEncode rootReserved ex.data ++
        ((if pa = [] then [] else '?' :: joinPieces '&' (pa.map serializeParam)) ++
          '#' :: pctEncode fragReserved fr.data)) := by
    simp [serializeL, List.append_assoc]
  rw [hser]
  exact (takeWhile_append_stop Char.isLower sc.data ':' _ hlow (by decide)).1

end Bufname

/-! ## Target Resolver

Modelled from the spec: §4.1 Target Resolver (`commitish.ts` with
`parseCommitish`, `INDEX` and `WORKTREE` is not among the provided
sources).  A comparison target is the working tree, the index, or a
commit reference; `parseCommitish` maps a revision expression and the
staging flag to the (old, new) pair of targets. -/

/-- Comparison target (spec §3 `ComparisonTarget`): worktree, index, or a
specific commit reference. -/
inductive Commitish
  | index
  | worktree
  | commit (ref : String)
deriving DecidableEq, Repr

/-- Split at the first occurrence of a multi-character separator. -/
def splitAtFirstSeq (sep : List Char) : List Char → Option (List Char × List Char)
  | [] => none
  | c :: rest =>
    if sep.isPrefixOf (c :: rest) then some ([], (c :: rest).drop sep.length)
    else
      match splitAtFirstSeq sep rest with
      | none => none
      | some (a, b) => some (c :: a, b)

/-- Modelled from the spec: §4.1 — empty expression: `(Index, Worktree)`
unstaged, `(Commit "HEAD", Index)` staged; a single revision `R`:
`(Commit R, Worktree)` unstaged, `(Commit R, Index)` staged; a
two-revision range `R1..R2`: `(Commit R1, Commit R2)` regardless of the
flag; more than two revisions fail with `InvalidRevisionExpression`. -/
def parseCommitish (expr : String) (cached : Bool) :
    Except String (Commitish × Commitish) :=
  if expr = "" then
    if cached then .ok (.commit "HEAD", .index) else .ok (.index, .worktree)
  else
    match splitAtFirstSeq ['.', '.'] expr.data with
    | none =>
      if cached then .ok (.commit expr, .index) else .ok (.commit expr, .worktree)
    | some (r1, r2) =>
      if (splitAtFirstSeq ['.', '.'] r2).isSome then
        .error "InvalidRevisionExpression"
      else .ok (.commit (String.mk r1), .commit (String.mk r2))

/-! ## Diff Line Locator

Modelled from the spec: §4.3 Diff Line Locator (`jump.ts` with
`findJumpOld` / `findJumpNew` is not among the provided sources).  A
single forward scan tracks the current file-header pair and hunk
counters; the entry at the cursor line, if it maps on the requested side,
yields the header path of that side and the counter value recorded before
advancing.  The returned path still carries its `a/` or `b/` marker — the
caller (`jumpOld` / `jumpNew` in the provided `command.ts`) strips it. -/

/-- Result of the locator: a file path and a 1-based line number. -/
structure Jump where
  path : String
  lnum : Nat
deriving DecidableEq, Repr

/-- Side of the diff a jump refers to. -/
inductive Side
  | old
  | new
deriving DecidableEq, Repr

/-- Scanner state: last seen file-header pair, whether a hunk header of
that file has been seen, and the two running line counters. -/
structure LocState where
  header : Option (String × String)
  inHunk : Bool
  oldLine : Nat
  newLine : Nat
deriving DecidableEq, Repr

/-- String comparison helper over the underlying character lists. -/
def strStartsWith (s p : String) : Bool := p.data.isPrefixOf s.data

/-- A file-header line `diff --git a/<path> b/<path>` yields the header
pair (spec §4.3 step 1: "the most recently seen file-header pair
(`a/<path>`, `b/<path>`) from lines beginning with the file-diff
marker"). -/
def parseFileHeader (line : String) : Option (String × String) :=
  if strStartsWith line "diff --git " then
    match splitAll ' ' (line.data.drop 11) with
    | [a, b] => some (String.mk a, String.mk b)
    | _ => none
  else none

/-- Accumulate decimal digits; fails on a non-digit. -/
def digitsVal (acc : Nat) : List Char → Option Nat
  | [] => some acc
  | c :: rest =>
    if c.isDigit then digitsVal (acc * 10 + (c.toNat - 48)) rest else none

/-- Parse a non-empty all-digit token. -/
def digitsToNat : List Char → Option Nat
  | [] => none
  | l => digitsVal 0 l

/-- Parse `start` or `start,count` of a hunk header; a missing count
defaults to 1. -/
def parseRangePart (tok : List Char) : Option (Nat × Nat) :=
  match splitAll ',' tok with
  | [a] => (digitsToNat a).map (fun n => (n, 1))
  | [a, b] =>
    match digitsToNat a, digitsToNat b with
    | some x, some y => some (x, y)
    | _, _ => none
  | _ => none

/-- A hunk header `@@ -oldStart,oldCount +newStart,newCount @@ ...`
parsed into `(oldStart, oldCount, newStart, newCount)` (spec §3
`DiffHunk`). -/
def parseHunkHeader (line : String) : Option (Nat × Nat × Nat × Nat) :=
  match splitAll ' ' line.data with
  | marks :: oldTok :: newTok :: rest =>
    if marks = ['@', '@'] ∧ rest.head? = some ['@', '@'] then
      match oldTok, newTok with
      | o0 :: otok, n0 :: ntok =>
        if o0 = '-' ∧ n0 = '+' then
          match parseRangePart otok, parseRangePart ntok with
          | some (os, oc), some (ns, nc) => some (os, oc, ns, nc)
          | _, _ => none
        else none
      | _, _ => none
    else none
  | _ => none

/-- One step of the forward scan (spec §4.3 steps 1-3): a file header
resets the header pair and leaves hunk state cleared; a hunk header
(re)initializes the counters to its start lines; inside a hunk an
addition advances `newLine`, a removal advances `oldLine`, and a context
line advances both. -/
def stepLine (st : LocState) (line : String) : LocState :=
  match parseFileHeader line with
  | some pr => ⟨some pr, false, 0, 0⟩
  | none =>
    match parseHunkHeader line with
    | some (os, _, ns, _) => ⟨st.header, true, os, ns⟩
    | none =>
      if !st.inHunk then st
      else if strStartsWith line "+" then
        ⟨st.header, st.inHunk, st.oldLine, st.newLine + 1⟩
      else if strStartsWith line "-" then
        ⟨st.header, st.inHunk, st.oldLine + 1, st.newLine⟩
      else ⟨st.header, st.inHunk, st.oldLine + 1, st.newLine + 1⟩

/-- Mapping of the cursor line itself (spec §4.3 step 4): header and hunk
marker lines are unmapped; an addition maps only on the New side, a
removal only on the Old side, a context line on both; the counter value
is the one recorded before advancing. -/
def mapAt (side : Side) (st : LocState) (line : String) : Option Jump :=
  if (parseFileHeader line).isSome || (parseHunkHeader line).isSome then none
  else
    match st.header with
    | none => none
    | some (a, b) =>
      if !st.inHunk then none
      else if strStartsWith line "+" then
        match side with
        | .new => some ⟨b, st.newLine⟩
        | .old => none
      else if strStartsWith line "-" then
        match side with
        | .old => some ⟨a, st.oldLine⟩
        | .new => none
      else
        match side with
        | .old => some ⟨a, st.oldLine⟩
        | .new => some ⟨b, st.newLine⟩

/-- Forward scan from a given state: step over lines until the 0-based
cursor index is reached, then map the cursor line. -/
def findJumpFrom (side : Side) (st : LocState) : Nat → List String → Option Jump
  | _, [] => none
  | 0, line :: _ => mapAt side st line
  | Nat.succ n, line :: rest => findJumpFrom side (stepLine st line) n rest

/-- Modelled from the spec: `findJumpOld` of `jump.ts` — locate the Old
side target of the 0-based cursor line. -/
def findJumpOld (idx : Nat) (content : List String) : Option Jump :=
  findJumpFrom .old ⟨none, false, 0, 0⟩ idx content

/-- Modelled from the spec: `findJumpNew` of `jump.ts` — locate the New
side target of the 0-based cursor line. -/
def findJumpNew (idx : Nat) (content : List String) : Option Jump :=
  findJumpFrom .new ⟨none, false, 0, 0⟩ idx content

/-- Strip the fixed `a/` marker, as `jumpOld` does with
`jump.path.replace(/^a\//, "")`. -/
def stripOldMarker (p : String) : String :=
  if strStartsWith p "a/" then String.mk (p.data.drop 2) else p

/-- Strip the fixed `b/` marker, as `jumpNew` does with
`jump.path.replace(/^b\//, "")`. -/
def stripNewMarker (p : String) : String :=
  if strStartsWith p "b/" then String.mk (p.data.drop 2) else p

/-- The spec-level locator (§4.3 `locate`): the side's find function
followed by stripping that side's fixed path marker. -/
def locate (side : Side) (cursor : Nat) (content : List String) : Option Jump :=
  match side with
  | .old => (findJumpOld cursor content).map (fun j => ⟨stripOldMarker j.path, j.lnum⟩)
  | .new => (findJumpNew cursor content).map (fun j => ⟨stripNewMarker j.path, j.lnum⟩)

/-! ## Diff View Controller

Embedded from the provided `feature/diff/command.ts`: `parseResidue`,
the buffer-name construction of `command`, the render entry point `read`,
and the jump entry points `jumpOld` / `jumpNew`.  External collaborators
(the diff process, the editor) appear as explicit function arguments or
as result values describing the requested effect. -/

/-- First parameter value stored under a key, mirroring object-key lookup
on the params record. -/
def lookupParam (params : List (String × Bufname.ParamValue)) (k : String) :
    Option Bufname.ParamValue :=
  (params.find? (fun p => p.1 = k)).map (fun p => p.2)

/-- Key-membership test, mirroring `"cached" in (params ?? {})`. -/
def hasParam (params : List (String × Bufname.ParamValue)) (k : String) : Bool :=
  (lookupParam params k).isSome

/-- The check `unknownutil.ensureString` on a parameter value: a
present-only flag is not a string and fails. -/
def ensureStringParam : Bufname.ParamValue → Except String String
  | .str s => .ok s
  | .present => .error "Not a string value"

/-- The expression `ensureString(params?.commitish ?? "")` of `jumpOld`
and `jumpNew`: an absent key defaults to the empty string before the
string check. -/
def commitishOf (params : List (String × Bufname.ParamValue)) :
    Except String String :=
  match lookupParam params "commitish" with
  | none => .ok ""
  | some v => ensureStringParam v

/-- Message the controller surfaces for a codec failure. -/
def codecErrorMessage : Bufname.CodecError → String
  | .UnrecognizedScheme => "Unrecognized scheme"
  | .MissingFragment => "A buffer requires a fragment part"
  | .InvalidFormat => "Invalid bufname"

/-- The open request a jump hands to the external file-viewing
collaborator (`editCommand` plus the final `fn.cursor` call): worktree
root, comparison target, relative path, and 1-based cursor line. -/
structure OpenRequest where
  worktree : String
  target : Commitish
  path : String
  lnum : Nat
deriving DecidableEq, Repr

/-- Embedded from `jumpOld` of `command.ts` (lines 198-239): parse the
buffer name, locate the Old side of the cursor line (`lnum` is 1-based),
do nothing when the locator yields nothing; otherwise strip the `a/`
marker, resolve the commitish with the `cached` flag, pick the FIRST
(old) target, and open index / worktree / `commitish || "HEAD"`
accordingly, placing the cursor at the located line. -/
def jumpOld (bname : String) (content : List String) (lnum : Nat) :
    Except String (Option OpenRequest) :=
  match Bufname.parseAny bname with
  | .error e => .error (codecErrorMessage e)
  | .ok d =>
    match findJumpOld (lnum - 1) content with
    | none => .ok none
    | some jump =>
      let path := stripOldMarker jump.path
      match commitishOf d.params with
      | .error e => .error e
      | .ok commitish =>
        match parseCommitish commitish (hasParam d.params "cached") with
        | .error e => .error e
        | .ok (target, _) =>
          if target = Commitish.index then
            .ok (some ⟨d.expr, .index, path, jump.lnum⟩)
          else if target = Commitish.worktree then
            .ok (some ⟨d.expr, .worktree, path, jump.lnum⟩)
          else
            .ok (some ⟨d.expr,
              .commit (if commitish = "" then "HEAD" else commitish),
              path, jump.lnum⟩)

/-- Embedded from `jumpNew` of `command.ts` (lines 241-282): same as
`jumpOld` but locating the New side, stripping the `b/` marker and
picking the SECOND (new) resolved target. -/
def jumpNew (bname : String) (content : List String) (lnum : Nat) :
    Except String (Option OpenRequest) :=
  match Bufname.parseAny bname with
  | .error e => .error (codecErrorMessage e)
  | .ok d =>
    match findJumpNew (lnum - 1) content with
    | none => .ok none
    | some jump =>
      let path := stripNewMarker jump.path
      match commitishOf d.params with
      | .error e => .error e
      | .ok commitish =>
        match parseCommitish commitish (hasParam d.params "cached") with
        | .error e => .error e
        | .ok (_, target) =>
          if target = Commitish.index then
            .ok (some ⟨d.expr, .index, path, jump.lnum⟩)
          else if target = Commitish.worktree then
            .ok (some ⟨d.expr, .worktree, path, jump.lnum⟩)
          else
            .ok (some ⟨d.expr,
              .commit (if commitish = "" then "HEAD" else commitish),
              path, jump.lnum⟩)

/-- Embedded from `parseResidue` of `command.ts` (lines 186-196):
`GinDiff [{options}] [{commitish}] {path}` — one positional argument is
the path, two are commitish then path, anything else is an error. -/
def parseResidue (residue : List String) : Except String (Option String × String) :=
  match residue with
  | [p] => .ok (none, p)
  | [c, p] => .ok (some c, p)
  | _ => .error "Invalid number of arguments"

/-- Embedded from `command` of `command.ts` (lines 62-75): split the
residue, derive the relative path through the external `path.relative`
collaborator, and serialize the `gindiff` descriptor whose params are the
validated flags plus the commitish (omitted when absent).  The error of
`parseResidue` aborts before any identifier is built. -/
def commandBufname (worktree : String) (flags : List (String × Bufname.ParamValue))
    (rel : String → String → String) (residue : List String) :
    Except String String :=
  match parseResidue residue with
  | .error e => .error e
  | .ok (commitish, abspath) =>
    let relpath := rel worktree abspath
    let params := flags ++
      (match commitish with
       | some c => [("commitish", Bufname.ParamValue.str c)]
       | none => [])
    .ok (Bufname.format ⟨"gindiff", worktree, params, relpath⟩)

/-- Modelled from the spec: flag formatting of the external `util/args.ts`
collaborator (`formatFlags`), rendering each parameter as a `--key` or
`--key=value` argument. -/
def formatFlags (flags : List (String × Bufname.ParamValue)) : List String :=
  flags.map (fun p =>
    match p.2 with
    | .present => "--" ++ p.1
    | .str v => "--" ++ p.1 ++ "=" ++ v)

/-- The git arguments `read` builds (lines 97-107 of `command.ts`):
`diff --no-color`, the flags without `commitish`, the commitish when it
is a non-empty string, then the fragment path. -/
def diffArgs (d : Bufname.BufferDescriptor) : List String :=
  ["diff", "--no-color"] ++
    formatFlags (d.params.filter (fun p => p.1 ≠ "commitish")) ++
    (match lookupParam d.params "commitish" with
     | some (.str c) => if c = "" then [] else [c]
     | _ => []) ++ [d.fragment]

/-- Effect of the render entry point on the editor: either an echoed
error message (buffer untouched) or a populated buffer. -/
inductive RenderEffect
  | echoError (msg : String)
  | populate (content : String)
deriving DecidableEq, Repr

/-- Embedded from `read` of `command.ts` (lines 78-184): parse the buffer
name (the fragment is required), run the external diff process on the
built arguments, and either echo the captured stderr on failure — leaving
the buffer untouched — or populate the buffer with the captured stdout.
The process collaborator is a function from arguments to
`(success, stdout, stderr)`. -/
def readModel (bname : String)
    (runDiff : List String → Bool × String × String) :
    Except Bufname.CodecError RenderEffect :=
  match Bufname.parse "gindiff" bname with
  | .error e => .error e
  | .ok d =>
    match runDiff (diffArgs d) with
    | (true, stdoutS, _) => .ok (.populate stdoutS)
    | (false, _, stderrS) => .ok (.echoError stderrS)

/-! ## Worktree discovery

Embedded from the provided `util/worktree.ts`.  The editor state (current
directory, buffer name, buffer directory) and the external collaborators
(`fnamemodify`, `fs.exists`, the repository-root finder `find`, and the
registered protocol list) are explicit arguments. -/

/-- Embedded from `getWorktree` of `worktree.ts` (lines 7-32): when the
current buffer has a name that parses to a registered gin scheme, expand
its `expr`; a parse failure is swallowed.  Otherwise fall back to the
repository root found from the buffer's directory when it exists, else
from the current working directory. -/
def getWorktree (protocols : List String) (fnamemodify : String → String)
    (fsExists : String → Bool) (find : String → String)
    (cwd bname dirname : String) : String :=
  let viaName : Option String :=
    if bname ≠ "" then
      match Bufname.parseAny bname with
      | .ok d => if protocols.contains d.scheme then some (fnamemodify d.expr) else none
      | .error _ => none
    else none
  match viaName with
  | some w => w
  | none => if dirname ≠ "" && fsExists dirname then find dirname else find cwd

/-- Embedded from `getWorktreeFromOpts` of `worktree.ts` (lines 34-42):
an explicit `++worktree` option wins (expanded and passed to the root
finder); otherwise buffer-based discovery runs. -/
def getWorktreeFromOpts (protocols : List String) (fnamemodify : String → String)
    (fsExists : String → Bool) (find : String → String)
    (expand : String → String) (cwd bname dirname : String)
    (worktreeOpt : Option String) : String :=
  match worktreeOpt with
  | some w => find (expand w)
  | none => getWorktree protocols fnamemodify fsExists find cwd bname dirname

/-- The minimal diff of spec §8: file header for `foo.txt`, hunk header
`@@ -1,2 +1,3 @@`, then context "a", addition "b", context "c". -/
def minimalDiff : List String :=
  ["diff --git a/foo.txt b/foo.txt", "@@ -1,2 +1,3 @@", " a", "+b", " c"]

/-! ## Claim theorems -/

/-- C1: for every valid `BufferDescriptor` `d`, parsing the serialized
identifier yields `d` back (`parse(serialize(d)) == d`), and the
serialization is injective over the legal descriptor space: two legal
descriptors with the same `BufferIdentifier` string are equal. -/
theorem c1_codec_roundtrip_injective (d d2 : Bufname.BufferDescriptor)
    (h : Bufname.ValidDescriptor d) (h2 : Bufname.ValidDescriptor d2) :
    Bufname.parse d.scheme (Bufname.format d) = .ok d ∧
      (Bufname.format d = Bufname.format d2 → d = d2) := by
  constructor
  · unfold Bufname.parse Bufname.format
    rw [show (String.mk (Bufname.serializeL d)).data = Bufname.serializeL d from rfl,
      Bufname.takeWhile_serializeL d h,
      show String.mk d.scheme.data = d.scheme from rfl, if_pos rfl]
    exact Bufname.parseAnyL_serializeL d h
  · intro heq
    have hdata : Bufname.serializeL d = Bufname.serializeL d2 :=
      congrArg String.data heq
    have r1 := Bufname.parseAnyL_serializeL d h
    have r2 := Bufname.parseAnyL_serializeL d2 h2
    rw [hdata] at r1
    exact Except.ok.inj (r1.symm.trans r2)

/-- Concrete descriptor for the C1 witness. -/
def c1Desc1 : Bufname.BufferDescriptor :=
  ⟨"gindiff", "/home/user/repo",
    [("cached", .present), ("commitish", .str "HEAD~1")], "src/main.ts"⟩

/-- Second concrete descriptor for the C1 witness. -/
def c1Desc2 : Bufname.BufferDescriptor :=
  ⟨"gindiff", "/home/user/repo", [], "src/main.ts"⟩

/-- C1 witness: the round-trip and injectivity statement at two concrete
valid descriptors. -/
theorem c1_witness :
    (Bufname.ValidDescriptor c1Desc1 ∧ Bufname.ValidDescriptor c1Desc2) ∧
      (Bufname.parse c1Desc1.scheme (Bufname.format c1Desc1) = .ok c1Desc1 ∧
        (Bufname.format c1Desc1 = Bufname.format c1Desc2 → c1Desc1 = c1Desc2)) :=
  ⟨⟨by decide, by decide⟩,
    c1_codec_roundtrip_injective c1Desc1 c1Desc2 (by decide) (by decide)⟩

/-- C3: the Target Resolver maps the empty expression to
`(Index, Worktree)` unstaged and `(Commit "HEAD", Index)` staged; a
single revision `R` (no range marker) to `(Commit R, Worktree)` unstaged
and `(Commit R, Index)` staged; a two-revision range `R1..R2` to
`(Commit R1, Commit R2)` regardless of the staging flag. -/
theorem c3_resolver (expr : String) (cached : Bool) :
    parseCommitish "" false = .ok (.index, .worktree) ∧
    parseCommitish "" true = .ok (.commit "HEAD", .index) ∧
    (expr ≠ "" → splitAtFirstSeq ['.', '.'] expr.data = none →
      parseCommitish expr false = .ok (.commit expr, .worktree) ∧
      parseCommitish expr true = .ok (.commit expr, .index)) ∧
    (∀ r1 r2, splitAtFirstSeq ['.', '.'] expr.data = some (r1, r2) →
      splitAtFirstSeq ['.', '.'] r2 = none →
      parseCommitish expr cached =
        .ok (.commit (String.mk r1), .commit (String.mk r2))) := by
  refine ⟨by decide, by decide, ?_, ?_⟩
  · intro hne hsingle
    constructor <;> simp [parseCommitish, hne, hsingle]
  · intro r1 r2 hsplit hnone
    have hne : expr ≠ "" := by
      intro h0
      subst h0
      rw [show ("" : String).data = [] from rfl] at hsplit
      simp [splitAtFirstSeq] at hsplit
    simp [parseCommitish, hne, hsplit, hnone]

/-- C3 witness: the resolver statement at the concrete range
`v1..v2` with the staging flag set. -/
theorem c3_witness :
    splitAtFirstSeq ['.', '.'] ("v1..v2" : String).data =
      some (("v1" : String).data, ("v2" : String).data) ∧
    parseCommitish "v1..v2" true = .ok (.commit "v1", .commit "v2") := by
  refine ⟨by decide, ?_⟩
  exact (c3_resolver "v1..v2" true).2.2.2 ("v1" : String).data ("v2" : String).data
    (by decide) (by decide)

/-- C4: on the minimal diff (file header `a/foo.txt`/`b/foo.txt`, hunk
`@@ -1,2 +1,3 @@`, context "a", addition "b", context "c") the locator
maps the addition line to `{path := "foo.txt", line := 2}` on the New
side and to nothing on the Old side, and maps the first context line to
`{path := "foo.txt", line := 1}` on the Old side — the `a/` and `b/`
markers stripped. -/
theorem c4_locator_minimal_diff :
    locate .new 3 minimalDiff = some ⟨"foo.txt", 2⟩ ∧
    locate .old 3 minimalDiff = none ∧
    locate .old 2 minimalDiff = some ⟨"foo.txt", 1⟩ :=
  ⟨by decide, by decide, by decide⟩

/-- A codec failure propagates through the render entry point. -/
theorem readModel_error (bname : String)
    (runDiff : List String → Bool × String × String) (e : Bufname.CodecError)
    (h : Bufname.parse "gindiff" bname = .error e) :
    readModel bname runDiff = .error e := by
  simp [readModel, h]

/-- C5: parsing an identifier whose scheme is not the expected tag fails
with `UnrecognizedScheme`, and rendering an identifier with the right
scheme but no fragment fails with `MissingFragment`; in both cases the
render entry point fails as a whole — it produces an error value and no
render effect at all. -/
theorem c5_malformed_identifier (d : Bufname.BufferDescriptor)
    (hv : Bufname.ValidDescriptor d) (hs : d.scheme ≠ "gindiff")
    (rest : List Char) (hr : '#' ∉ rest)
    (runDiff : List String → Bool × String × String) :
    (Bufname.parse "gindiff" (Bufname.format d) = .error .UnrecognizedScheme ∧
      readModel (Bufname.format d) runDiff = .error .UnrecognizedScheme) ∧
    (Bufname.parse "gindiff"
        (String.mk ("gindiff".data ++ ':' :: '/' :: '/' :: rest)) =
        .error .MissingFragment ∧
      readModel (String.mk ("gindiff".data ++ ':' :: '/' :: '/' :: rest)) runDiff =
        .error .MissingFragment) := by
  have hp1 : Bufname.parse "gindiff" (Bufname.format d) =
      .error .UnrecognizedScheme := by
    unfold Bufname.parse Bufname.format
    rw [show (String.mk (Bufname.serializeL d)).data = Bufname.serializeL d from rfl,
      Bufname.takeWhile_serializeL d hv,
      show String.mk d.scheme.data = d.scheme from rfl]
    exact if_neg hs
  have hstop := Bufname.takeWhile_append_stop Char.isLower "gindiff".data ':'
    ('/' :: '/' :: rest) (by decide) (by decide)
  have hp2 : Bufname.parse "gindiff"
      (String.mk ("gindiff".data ++ ':' :: '/' :: '/' :: rest)) =
      .error .MissingFragment := by
    unfold Bufname.parse
    rw [show (String.mk ("gindiff".data ++ ':' :: '/' :: '/' :: rest)).data =
      "gindiff".data ++ ':' :: '/' :: '/' :: rest from rfl, hstop.1,
      show String.mk "gindiff".data = "gindiff" from rfl, if_pos rfl]
    simp only [Bufname.parseAnyL, hstop.1, hstop.2]
    rw [if_neg (show ¬("gindiff".data = []) from by decide)]
    have hpre : ([':', '/', '/'].isPrefixOf (':' :: '/' :: '/' :: rest)) = true := by
      simp [List.isPrefixOf]
    simp only [hpre, if_true, List.drop_succ_cons, List.drop_zero,
      splitAtFirst_not_mem '#' rest hr]
  exact ⟨⟨hp1, readModel_error _ runDiff _ hp1⟩,
    ⟨hp2, readModel_error _ runDiff _ hp2⟩⟩

/-- Valid descriptor with a foreign scheme for the C5 witness. -/
def c5Desc : Bufname.BufferDescriptor := ⟨"ginedit", "/repo", [], "foo.txt"⟩

/-- C5 witness: the malformed-identifier statement at a concrete foreign
scheme and a concrete fragment-less identifier. -/
theorem c5_witness :
    Bufname.ValidDescriptor c5Desc ∧ c5Desc.scheme ≠ "gindiff" ∧
      ('#' ∉ ("/repo" : String).data) ∧
      (Bufname.parse "gindiff" (Bufname.format c5Desc) =
          .error .UnrecognizedScheme ∧
        readModel (Bufname.format c5Desc) (fun _ => (true, "", "")) =
          .error .UnrecognizedScheme) ∧
      Bufname.parse "gindiff"
          (String.mk ("gindiff".data ++ ':' :: '/' :: '/' :: ("/repo" : String).data)) =
        .error .MissingFragment := by
  have h := c5_malformed_identifier c5Desc (by decide) (by decide)
    ("/repo" : String).data (by decide) (fun _ => (true, "", ""))
  exact ⟨by decide, by decide, by decide, h.1, h.2.1⟩

/-- C6: when the external diff command fails, `read` surfaces the
captured stderr as the echoed error message and returns without
populating the buffer — no populate effect is produced, so the existing
buffer state is untouched. -/
theorem c6_process_failure (bname : String) (d : Bufname.BufferDescriptor)
    (outS errS : String) (runDiff : List String → Bool × String × String)
    (hparse : Bufname.parse "gindiff" bname = .ok d)
    (hrun : runDiff (diffArgs d) = (false, outS, errS)) :
    readModel bname runDiff = .ok (.echoError errS) ∧
      ∀ s, readModel bname runDiff ≠ .ok (.populate s) := by
  have h1 : readModel bname runDiff = .ok (.echoError errS) := by
    simp [readModel, hparse, hrun]
  refine ⟨h1, fun s hcon => ?_⟩
  rw [h1] at hcon
  exact RenderEffect.noConfusion (Except.ok.inj hcon)

/-- Descriptor of the C6 witness buffer. -/
def c6Desc : Bufname.BufferDescriptor := ⟨"gindiff", "/repo", [], "foo.txt"⟩

/-- C6 witness: a failing diff process on a concrete buffer name echoes
the concrete stderr. -/
theorem c6_witness :
    Bufname.parse "gindiff" (Bufname.format c6Desc) = .ok c6Desc ∧
      readModel (Bufname.format c6Desc) (fun _ => (false, "", "fatal: bad revision")) =
        .ok (.echoError "fatal: bad revision") := by
  refine ⟨by decide, ?_⟩
  exact (c6_process_failure (Bufname.format c6Desc) c6Desc "" "fatal: bad revision"
    (fun _ => (false, "", "fatal: bad revision")) (by decide) rfl).1

/-- C7: whenever the locator finds no mapping for the requested side, the
jump entry points do nothing at all — they return the no-action value and
no error. -/
theorem c7_absent_no_action (bname : String) (content : List String) (lnum : Nat)
    (d : Bufname.BufferDescriptor) (hd : Bufname.parseAny bname = .ok d)
    (hold : findJumpOld (lnum - 1) content = none)
    (hnew : findJumpNew (lnum - 1) content = none) :
    jumpOld bname content lnum = .ok none ∧
      jumpNew bname content lnum = .ok none := by
  constructor
  · simp [jumpOld, hd, hold]
  · simp [jumpNew, hd, hnew]

/-- C7 witness: jumping in an empty buffer under a concrete well-formed
buffer name does nothing. -/
theorem c7_witness :
    jumpOld "gindiff://repo#foo.txt" [] 1 = .ok none ∧
      jumpNew "gindiff://repo#foo.txt" [] 1 = .ok none :=
  c7_absent_no_action "gindiff://repo#foo.txt" [] 1
    ⟨"gindiff", "repo", [], "foo.txt"⟩ (by decide) (by decide) (by decide)

/-- C2: for a diff buffer whose descriptor has an empty revision
expression and no `cached` flag — so the resolver yields
`(Index, Worktree)` — a jump-new on an addition line opens the Worktree
version of the mapped file at the mapped line, and a jump-old on a
removal line opens the Index content; jump-old takes the first (old)
resolved target, jump-new the second (new). -/
theorem c2_unstaged_jumps (bname : String) (content : List String) (lnum : Nat)
    (d : Bufname.BufferDescriptor)
    (hd : Bufname.parseAny bname = .ok d)
    (hnc : hasParam d.params "cached" = false)
    (hc : commitishOf d.params = .ok "") :
    (∀ l j, content.get? (lnum - 1) = some l → strStartsWith l "+" = true →
      findJumpNew (lnum - 1) content = some j →
      jumpNew bname content lnum =
        .ok (some ⟨d.expr, .worktree, stripNewMarker j.path, j.lnum⟩)) ∧
    (∀ l j, content.get? (lnum - 1) = some l → strStartsWith l "-" = true →
      findJumpOld (lnum - 1) content = some j →
      jumpOld bname content lnum =
        .ok (some ⟨d.expr, .index, stripOldMarker j.path, j.lnum⟩)) := by
  constructor
  · intro l j _ _ hj
    simp [jumpNew, hd, hj, hc, hnc, parseCommitish]
  · intro l j _ _ hj
    simp [jumpOld, hd, hj, hc, hnc, parseCommitish]

/-- C2 witness: on the minimal diff under `gindiff://repo#foo.txt`
(no commitish, no `cached`), jump-new on the addition line opens the
worktree file at line 2 and jump-old on the addition line does nothing,
while jump-old works on removal lines of a removal diff. -/
theorem c2_witness :
    jumpNew "gindiff://repo#foo.txt" minimalDiff 4 =
      .ok (some ⟨"repo", .worktree, "foo.txt", 2⟩) ∧
    jumpOld "gindiff://repo#foo.txt"
        ["diff --git a/foo.txt b/foo.txt", "@@ -1,2 +1,1 @@", " a", "-b"] 4 =
      .ok (some ⟨"repo", .index, "foo.txt", 2⟩) := by
  constructor
  · have h := (c2_unstaged_jumps "gindiff://repo#foo.txt" minimalDiff 4
      ⟨"gindiff", "repo", [], "foo.txt"⟩ (by decide) (by decide) (by decide)).1
      "+b" ⟨"b/foo.txt", 2⟩ (by decide) (by decide) (by decide)
    simpa using h
  · have h := (c2_unstaged_jumps "gindiff://repo#foo.txt"
      ["diff --git a/foo.txt b/foo.txt", "@@ -1,2 +1,1 @@", " a", "-b"] 4
      ⟨"gindiff", "repo", [], "foo.txt"⟩ (by decide) (by decide) (by decide)).2
      "-b" ⟨"a/foo.txt", 2⟩ (by decide) (by decide) (by decide)
    simpa using h

/-- C8: when a jump's chosen target — the first resolved target for
jump-old, the second for jump-new — is the Index, the staged content is
opened; the Worktree, the file under the repository root; a Commit, the
content of the stored revision expression with the empty expression
defaulting to `"HEAD"`; and the open request carries the locator's line
for the cursor. -/
theorem c8_jump_targets (bname : String) (content : List String) (lnum : Nat)
    (d : Bufname.BufferDescriptor) (c : String) (pr : Commitish × Commitish)
    (hd : Bufname.parseAny bname = .ok d)
    (hc : commitishOf d.params = .ok c)
    (hpc : parseCommitish c (hasParam d.params "cached") = .ok pr) :
    (∀ j, findJumpOld (lnum - 1) content = some j →
      ((pr.1 = .index → jumpOld bname content lnum =
          .ok (some ⟨d.expr, .index, stripOldMarker j.path, j.lnum⟩)) ∧
        (pr.1 = .worktree → jumpOld bname content lnum =
          .ok (some ⟨d.expr, .worktree, stripOldMarker j.path, j.lnum⟩)) ∧
        (∀ r, pr.1 = .commit r → jumpOld bname content lnum =
          .ok (some ⟨d.expr, .commit (if c = "" then "HEAD" else c),
            stripOldMarker j.path, j.lnum⟩)))) ∧
    (∀ j, findJumpNew (lnum - 1) content = some j →
      ((pr.2 = .index → jumpNew bname content lnum =
          .ok (some ⟨d.expr, .index, stripNewMarker j.path, j.lnum⟩)) ∧
        (pr.2 = .worktree → jumpNew bname content lnum =
          .ok (some ⟨d.expr, .worktree, stripNewMarker j.path, j.lnum⟩)) ∧
        (∀ r, pr.2 = .commit r → jumpNew bname content lnum =
          .ok (some ⟨d.expr, .commit (if c = "" then "HEAD" else c),
            stripNewMarker j.path, j.lnum⟩)))) := by
  obtain ⟨t1, t2⟩ := pr
  constructor
  · intro j hj
    refine ⟨?_, ?_, ?_⟩
    · intro h1
      subst h1
      simp [jumpOld, hd, hj, hc, hpc]
    · intro h1
      subst h1
      simp [jumpOld, hd, hj, hc, hpc]
    · intro r h1
      subst h1
      simp [jumpOld, hd, hj, hc, hpc]
  · intro j hj
    refine ⟨?_, ?_, ?_⟩
    · intro h1
      subst h1
      simp [jumpNew, hd, hj, hc, hpc]
    · intro h1
      subst h1
      simp [jumpNew, hd, hj, hc, hpc]
    · intro r h1
      subst h1
      simp [jumpNew, hd, hj, hc, hpc]

/-- C8 witness: with the stored expression `abc` and no staging flag the
old side is `Commit "abc"`, and jump-old on a context line opens that
commit's content at the located line. -/
theorem c8_witness :
    jumpOld "gindiff://repo?commitish=abc#foo.txt" minimalDiff 3 =
      .ok (some ⟨"repo", .commit "abc", "foo.txt", 1⟩) := by
  have h := ((c8_jump_targets "gindiff://repo?commitish=abc#foo.txt"
    minimalDiff 3 ⟨"gindiff", "repo", [("commitish", .str "abc")], "foo.txt"⟩
    "abc" (.commit "abc", .worktree) (by decide) (by decide) (by decide)).1
    ⟨"a/foo.txt", 1⟩ (by decide)).2.2 "abc" rfl
  simpa using h

/-- C9: the Open command accepts exactly one or two positional
arguments — one is the path with no revision expression, two are the
expression then the path — and any other count fails before any buffer
identifier is built. -/
theorem c9_residue_arity (residue : List String) (worktree : String)
    (flags : List (String × Bufname.ParamValue))
    (rel : String → String → String) :
    (∀ p, residue = [p] → parseResidue residue = .ok (none, p)) ∧
    (∀ c p, residue = [c, p] → parseResidue residue = .ok (some c, p)) ∧
    (residue.length ≠ 1 → residue.length ≠ 2 →
      parseResidue residue = .error "Invalid number of arguments" ∧
      commandBufname worktree flags rel residue =
        .error "Invalid number of arguments") := by
  refine ⟨?_, ?_, ?_⟩
  · rintro p rfl
    rfl
  · rintro c p rfl
    rfl
  · intro h1 h2
    have herr : parseResidue residue = .error "Invalid number of arguments" := by
      match residue with
      | [] => rfl
      | [a] => exact absurd rfl h1
      | [a, b] => exact absurd rfl h2
      | a :: b :: e :: rest => rfl
    exact ⟨herr, by simp [commandBufname, herr]⟩

/-- C9 witness: two arguments parse as revision and path; zero arguments
abort the command before an identifier exists. -/
theorem c9_witness :
    parseResidue ["rev", "file.txt"] = .ok (some "rev", "file.txt") ∧
      commandBufname "/repo" [] (fun _ a => a) [] =
        .error "Invalid number of arguments" := by
  refine ⟨?_, ?_⟩
  · exact (c9_residue_arity ["rev", "file.txt"] "/repo" []
      (fun _ a => a)).2.1 "rev" "file.txt" rfl
  · exact ((c9_residue_arity [] "/repo" [] (fun _ a => a)).2.2
      (by decide) (by decide)).2

/-- C10: worktree discovery never propagates a buffer-name parsing
failure — when the current buffer's name fails to parse or its scheme is
not a registered gin protocol, `getWorktree` silently falls back to the
repository root found from the buffer's directory when that exists, and
otherwise from the current working directory. -/
theorem c10_worktree_fallback (protocols : List String)
    (fnamemodify : String → String) (fsExists : String → Bool)
    (find : String → String) (cwd bname dirname : String)
    (hfail : (∃ e, Bufname.parseAny bname = .error e) ∨
      (∃ d, Bufname.parseAny bname = .ok d ∧
        protocols.contains d.scheme = false)) :
    getWorktree protocols fnamemodify fsExists find cwd bname dirname =
      (if dirname ≠ "" && fsExists dirname then find dirname else find cwd) := by
  unfold getWorktree
  rcases hfail with ⟨e, he⟩ | ⟨d, hd, hcontains⟩
  · by_cases hb : bname = "" <;> simp [hb, he]
  · have hnm : d.scheme ∉ protocols := by simpa using hcontains
    by_cases hb : bname = "" <;> simp [hb, hd, hnm]

/-- C10 witness: a buffer named with an unregistered scheme and an empty
buffer directory falls back to finding the root from the current working
directory. -/
theorem c10_witness :
    getWorktree ["ginedit"] (fun s => s) (fun _ => false) (fun s => s)
        "/cwd" "gindiff://repo#f" "" = "/cwd" := by
  have h := c10_worktree_fallback ["ginedit"] (fun s => s) (fun _ => false)
    (fun s => s) "/cwd" "gindiff://repo#f" ""
    (Or.inr ⟨⟨"gindiff", "repo", [], "f"⟩, by decide, by decide⟩)
  simpa using h

end Gin
